import Mathlib

/-!
Verification of blahfeed (src/blahfeed.py), a feed aggregator.

The development shallowly embeds the program:

* SHA-256 is implemented in full (the program calls hashlib.sha256 on the
  newline-joined sorted URL list); machine words are Nat reduced mod 2^32.
* The cache-key normalization embeds re.sub("[^a-z0-9-]+", "-", url):
  every maximal run of characters outside the (case-sensitive) class
  [a-z0-9-] is replaced by a single "-".  A fuel-indexed structural
  recursion is used so that the definition evaluates by rfl/decide; the
  fuel is the length of the list, which always suffices.
* File-system and network effects are an oracle (World): cache lookup
  returns the stored bytes and their age, read/write failures and fetch
  outcomes are oracle fields.  Each claim concerns a single call, so the
  world is a per-call snapshot.
* Python's sorted(..., key=..., reverse=True) is embedded as a stable
  insertion sort in the Except monad whose comparator fails (TypeError)
  whenever either compared key is None, exactly as comparing None with a
  time.struct_time (or with None) raises in Python.  Both timsort and
  this insertion sort perform at least one comparison touching every
  element once the list has two or more elements, and none on shorter
  lists, so the two agree on when a TypeError is raised; on success both
  are the unique stable descending sort, so they agree on the result.
  struct_time values are totally ordered tuples; they are embedded as Nat.
-/

/-! ## SHA-256 over byte lists (Nat, mod 2^32) -/

def w32 (n : Nat) : Nat := n % 4294967296

def comp32 (x : Nat) : Nat := Nat.xor x 4294967295

def rotr32 (n x : Nat) : Nat := w32 ((x >>> n) ||| (x <<< (32 - n)))

def bigSigma0 (x : Nat) : Nat :=
  Nat.xor (Nat.xor (rotr32 2 x) (rotr32 13 x)) (rotr32 22 x)

def bigSigma1 (x : Nat) : Nat :=
  Nat.xor (Nat.xor (rotr32 6 x) (rotr32 11 x)) (rotr32 25 x)

def smallSigma0 (x : Nat) : Nat :=
  Nat.xor (Nat.xor (rotr32 7 x) (rotr32 18 x)) (x >>> 3)

def smallSigma1 (x : Nat) : Nat :=
  Nat.xor (Nat.xor (rotr32 17 x) (rotr32 19 x)) (x >>> 10)

def chFn (e f g : Nat) : Nat := Nat.xor (Nat.land e f) (Nat.land (comp32 e) g)

def majFn (a b c : Nat) : Nat :=
  Nat.xor (Nat.xor (Nat.land a b) (Nat.land a c)) (Nat.land b c)

def sha256K : List Nat :=
  [1116352408, 1899447441, 3049323471, 3921009573, 961987163,
   1508970993, 2453635748, 2870763221, 3624381080, 310598401,
   607225278, 1426881987, 1925078388, 2162078206, 2614888103,
   3248222580, 3835390401, 4022224774, 264347078, 604807628,
   770255983, 1249150122, 1555081692, 1996064986, 2554220882,
   2821834349, 2952996808, 3210313671, 3336571891, 3584528711,
   113926993, 338241895, 666307205, 773529912, 1294757372,
   1396182291, 1695183700, 1986661051, 2177026350, 2456956037,
   2730485921, 2820302411, 3259730800, 3345764771, 3516065817,
   3600352804, 4094571909, 275423344, 430227734, 506948616,
   659060556, 883997877, 958139571, 1322822218, 1537002063,
   1747873779, 1955562222, 2024104815, 2227730452, 2361852424,
   2428436474, 2756734187, 3204031479, 3329325298]

def sha256H0 : List Nat :=
  [1779033703, 3144134277, 1013904242, 2773480762,
   1359893119, 2600822924, 528734635, 1541459225]

/-- Extend a message-schedule word list by one word from the last 16. -/
def scheduleStep (ws : List Nat) : List Nat :=
  let n := ws.length
  let w16 := ws.getD (n - 16) 0
  let w15 := ws.getD (n - 15) 0
  let w7 := ws.getD (n - 7) 0
  let w2 := ws.getD (n - 2) 0
  ws ++ [w32 (w16 + smallSigma0 w15 + w7 + smallSigma1 w2)]

/-- Full 64-word message schedule from a 16-word block. -/
def schedule (block : List Nat) : List Nat :=
  (List.range 48).foldl (fun acc _ => scheduleStep acc) block

/-- One round of the SHA-256 compression function on the 8-word state. -/
def compressStep (st : List Nat) (kw : Nat × Nat) : List Nat :=
  match st with
  | [a, b, c, d, e, f, g, h] =>
    let t1 := w32 (h + bigSigma1 e + chFn e f g + kw.1 + kw.2)
    let t2 := w32 (bigSigma0 a + majFn a b c)
    [w32 (t1 + t2), a, b, c, w32 (d + t1), e, f, g]
  | other => other

/-- Process one 16-word block, updating the 8-word hash state. -/
def processBlock (h : List Nat) (block : List Nat) : List Nat :=
  let st := (sha256K.zip (schedule block)).foldl compressStep h
  (h.zip st).map (fun p => w32 (p.1 + p.2))

/-- Big-endian byte expansion to k bytes. -/
def beBytes : Nat → Nat → List Nat
  | 0, _ => []
  | Nat.succ k, n => ((n >>> (8 * k)) % 256) :: beBytes k n

/-- SHA-256 padding: 0x80, zeros to 56 mod 64, 8-byte big-endian bit length. -/
def padMessage (msg : List Nat) : List Nat :=
  let len := msg.length
  let z := (119 - len % 64) % 64
  msg ++ [128] ++ List.replicate z 0 ++ beBytes 8 (len * 8)

/-- Pack bytes into big-endian 32-bit words. -/
def bytesToWords : List Nat → List Nat
  | b0 :: b1 :: b2 :: b3 :: rest =>
    (((b0 * 256 + b1) * 256 + b2) * 256 + b3) :: bytesToWords rest
  | _ => []

/-- Split a word list into 16-word blocks; the fuel bounds the recursion
and any fuel at least the list length is enough. -/
def toBlocksF : Nat → List Nat → List (List Nat)
  | _, [] => []
  | 0, _ => []
  | Nat.succ fuel, l => l.take 16 :: toBlocksF fuel (l.drop 16)

/-- SHA-256 of a byte list, as the 8-word final state. -/
def sha256Words (msg : List Nat) : List Nat :=
  let ws := bytesToWords (padMessage msg)
  (toBlocksF ws.length ws).foldl processBlock sha256H0

def hexDigit (n : Nat) : Char :=
  if n < 10 then Char.ofNat (48 + n) else Char.ofNat (87 + n)

/-- Lowercase hex rendering of one 32-bit word, 8 digits. -/
def wordHex (x : Nat) : List Char :=
  (List.range 8).map (fun i => hexDigit ((x >>> (4 * (7 - i))) % 16))

/-- Hex digest string of a byte list, as hashlib's hexdigest produces. -/
def sha256Hex (msg : List Nat) : String :=
  String.mk ((sha256Words msg).foldr (fun x acc => wordHex x ++ acc) [])

/-- UTF-8 encoding of a single character, as Python's str.encode. -/
def utf8Bytes (c : Char) : List Nat :=
  let n := c.toNat
  if n < 128 then [n]
  else if n < 2048 then [192 + n / 64, 128 + n % 64]
  else if n < 65536 then [224 + n / 4096, 128 + (n / 64) % 64, 128 + n % 64]
  else [240 + n / 262144, 128 + (n / 4096) % 64, 128 + (n / 64) % 64,
        128 + n % 64]

/-- UTF-8 bytes of a string, as Python's str.encode. -/
def strBytes (s : String) : List Nat :=
  s.data.foldr (fun c acc => utf8Bytes c ++ acc) []

/-- Validation of the SHA-256 embedding on the empty message. -/
theorem sha256Hex_empty :
    sha256Hex [] =
      "e3b0c44298fc1c149afbf4c8996fb92427ae41e4649b934ca495991b7852b855" := by
  decide

/-- Validation of the SHA-256 embedding on the message "abc". -/
theorem sha256Hex_abc :
    sha256Hex (strBytes "abc") =
      "ba7816bf8f01cfea414140de5dae2223b00361a396177a9cb410ff61f20015ad" := by
  decide

/-! ## Cache-key normalization

The source builds the cache path as re.sub("[^a-z0-9-]+", "-", url):
leftmost, non-overlapping, greedy matching replaces every maximal run of
characters outside the class [a-z0-9-] (case-sensitive: the pattern has
no IGNORECASE flag) by one "-". -/

/-- Membership in the character class [a-z0-9-] of the source regex. -/
def allowedChar (c : Char) : Bool :=
  (decide ('a' ≤ c) && decide (c ≤ 'z')) ||
  (decide ('0' ≤ c) && decide (c ≤ '9')) ||
  (c == '-')

/-- Fuel-indexed embedding of re.sub("[^a-z0-9-]+", "-", _): each maximal
run of disallowed characters becomes a single separator.  Any fuel at
least the length of the list yields the run-collapsing behavior. -/
def normCharsF : Nat → List Char → List Char
  | _, [] => []
  | 0, _ => []
  | Nat.succ fuel, c :: rest =>
    if allowedChar c then c :: normCharsF fuel rest
    else '-' :: normCharsF fuel (rest.dropWhile (fun d => !allowedChar d))

/-- Cache key of a URL, as the source computes the cache file name. -/
def cacheKey (url : String) : String :=
  String.mk (normCharsF url.data.length url.data)

/-- Modelled from the spec: run-collapsing normalization written as a
state machine; the flag records whether we are inside a disallowed run.
Used to restate the normalization independently of the fuel recursion. -/
def collapseSub : List Char → Bool → List Char
  | [], _ => []
  | c :: rest, inRun =>
    if allowedChar c then c :: collapseSub rest false
    else if inRun then collapseSub rest true
    else '-' :: collapseSub rest true

/-- Modelled from the spec: the character class the claim describes,
keeping letters of either case, digits and the hyphen. -/
def allowedCharCI (c : Char) : Bool :=
  allowedChar c || (decide ('A' ≤ c) && decide (c ≤ 'Z'))

/-- Modelled from the spec: the normalization the claim describes, with
the case-insensitive class. -/
def collapseSubCI : List Char → Bool → List Char
  | [], _ => []
  | c :: rest, inRun =>
    if allowedCharCI c then c :: collapseSubCI rest false
    else if inRun then collapseSubCI rest true
    else '-' :: collapseSubCI rest true

/-- Modelled from the spec: the cache key the claim describes. -/
def claimCacheKey (url : String) : String :=
  String.mk (collapseSubCI url.data false)

/-! ## Data model -/

/-- Entry record as consumed by the aggregator: the fields the source
reads from a feedparser entry.  Parsed timestamps are Nat because
time.struct_time values are totally ordered tuples and only their order
matters to the program. -/
structure Entry where
  title : String
  guid : String
  link : String
  published : Option String
  updated : Option String
  published_parsed : Option Nat
  updated_parsed : Option Nat
deriving DecidableEq

/-- Parsed feed: the aggregator only reads the entries field. -/
structure Feed where
  entries : List Entry
deriving DecidableEq

/-- Emitted feed, the data handed to the FeedGenerator emitter: id
string, title, and the ordered entry list. -/
structure AtomFeed where
  fid : String
  ftitle : String
  fentries : List Entry
deriving DecidableEq

/-- Errors a run can raise: HTTP/transport failure (raise_for_status or
sess.get), cache file read or write OSError, parse/decode failure, and
the TypeError raised by sorted when a key is None. -/
inductive Err where
  | fetch (status : Nat)
  | cacheRead
  | cacheWrite
  | parse (code : Nat)
  | typeErr
deriving DecidableEq

/-- Oracle for the effects of one call: the cache directory state (bytes
and age per cache key, age derived from mtime as in get_file_age),
whether reading or writing a given cache file raises OSError, the
network response per URL, and the parser's verdict per byte string. -/
structure World where
  cache : String → Option (List Nat × Nat)
  readErr : String → Bool
  writeErr : String → Bool
  fetch : String → Except Nat (List Nat)
  parse : List Nat → Except Nat Feed

/-! ## Feed fetcher (parse_feed, lines 26-44) -/

/-- Live-fetch path of parse_feed (lines 32-36): sess.get plus
raise_for_status, then the cache write; one network request is issued
whatever the outcome. -/
def liveFetch (w : World) (url : String) : Except Err (List Nat) × Nat :=
  match w.fetch url with
  | .error status => (.error (.fetch status), 1)
  | .ok content =>
    if w.writeErr (cacheKey url) then (.error .cacheWrite, 1)
    else (.ok content, 1)

/-- Fetch phase of parse_feed (lines 29-39): returns the bytes or the
raised error, paired with the number of network requests issued. -/
def fetchContent (w : World) (url : String) (maxAge : Nat) :
    Except Err (List Nat) × Nat :=
  match w.cache (cacheKey url) with
  | none => liveFetch w url
  | some (bytes, age) =>
    if age > maxAge then liveFetch w url
    else if w.readErr (cacheKey url) then (.error .cacheRead, 0)
    else (.ok bytes, 0)

/-- Whole of parse_feed: fetch phase then decode+feedparser.parse. -/
def parse_feed (w : World) (url : String) (maxAge : Nat) :
    Except Err Feed × Nat :=
  match fetchContent w url maxAge with
  | (.error e, n) => (.error e, n)
  | (.ok content, n) =>
    match w.parse content with
    | .error code => (.error (.parse code), n)
    | .ok f => (.ok f, n)

/-! ## Entry ordering (lines 54-58) -/

/-- Sort key of an entry: item.get("updated_parsed") or
item.get("published_parsed").  A present struct_time is always truthy,
so the Python or-fallback is exactly this Option fallback. -/
def entryKey (e : Entry) : Option Nat :=
  match e.updated_parsed with
  | some t => some t
  | none => e.published_parsed

/-- Key with a default, used to state order properties; it agrees with
entryKey whenever the key is present. -/
def keyD (e : Entry) : Nat := (entryKey e).getD 0

/-- Order "a may precede b" of the descending stable sort: the key of a
is at least the key of b. -/
def entryGe (a b : Entry) : Prop := keyD b ≤ keyD a

instance : DecidableRel entryGe := fun a b => Nat.decLe (keyD b) (keyD a)

instance : IsTotal Entry entryGe :=
  ⟨fun a b => Or.symm (Nat.le_total (keyD a) (keyD b))⟩

instance : IsTrans Entry entryGe :=
  ⟨fun _ _ _ hab hbc => Nat.le_trans hbc hab⟩

/-- Comparison performed by sorted on two keys.  Comparing None with
anything (struct_time or None) raises TypeError in Python 3. -/
def cmpKeys : Option Nat → Option Nat → Except Err Bool
  | some a, some b => .ok (decide (b ≤ a))
  | _, _ => .error .typeErr

/-- Fallible ordered insert: each comparison may raise TypeError. -/
def insertE (x : Entry) : List Entry → Except Err (List Entry)
  | [] => .ok [x]
  | y :: ys =>
    match cmpKeys (entryKey x) (entryKey y) with
    | .error e => .error e
    | .ok true => .ok (x :: y :: ys)
    | .ok false =>
      match insertE x ys with
      | .error e => .error e
      | .ok t => .ok (y :: t)

/-- Fallible stable descending sort, the embedding of
sorted(..., key=..., reverse=True): see the header comment for why its
error behavior and its successful output agree with timsort's. -/
def sortE : List Entry → Except Err (List Entry)
  | [] => .ok []
  | x :: xs =>
    match sortE xs with
    | .error e => .error e
    | .ok t => insertE x t

/-! ## Aggregator (generate_hybrid_feed, lines 47-70) -/

/-- Lexicographic order on code-point lists, as Python compares
strings: an empty list is least, otherwise the smaller head wins and
equal heads defer to the tails. -/
def lexLe : List Char → List Char → Bool
  | [], _ => true
  | _ :: _, [] => false
  | a :: as, b :: bs =>
    decide (a.toNat < b.toNat) ||
      (decide (a.toNat = b.toNat) && lexLe as bs)

/-- Python's string less-or-equal: lexicographic by code point. -/
def strLe (a b : String) : Bool := lexLe a.data b.data

/-- Python's sorted on strings, as a stable insertion sort under the
code-point lexicographic order. -/
def sortedUrls (urls : List String) : List String :=
  List.insertionSort (fun a b : String => strLe a b = true) urls

/-- Feed identity (line 48): sha256 of the newline-joined sorted URL
list, with the feed id "feed-" added in front (line 61). -/
def feedId (urls : List String) : String :=
  "feed-" ++ sha256Hex (strBytes (String.intercalate "\n" (sortedUrls urls)))

/-- Outcomes of the per-URL coroutines launched by asyncio.gather. -/
def fetchResults (w : World) (urls : List String) (maxAge : Nat) :
    List (Except Err Feed × Nat) :=
  urls.map (fun u => parse_feed w u maxAge)

/-- Network requests issued across the whole gather: the coroutines all
run regardless of another's failure. -/
def netTotal (w : World) (urls : List String) (maxAge : Nat) : Nat :=
  ((fetchResults w urls maxAge).map Prod.snd).sum

/-- Fail-fast collection, the embedding of awaiting asyncio.gather:
the first error aborts, otherwise all feeds are returned. -/
def collectE : List (Except Err Feed) → Except Err (List Feed)
  | [] => .ok []
  | .error e :: _ => .error e
  | .ok f :: rest =>
    match collectE rest with
    | .error e => .error e
    | .ok fs => .ok (f :: fs)

/-- Result of the gather phase of generate_hybrid_feed (lines 50-52). -/
def fetchedFeeds (w : World) (urls : List String) (maxAge : Nat) :
    Except Err (List Feed) :=
  collectE ((fetchResults w urls maxAge).map Prod.fst)

/-- Flattening chain(*(f["entries"] for f in feeds)) (line 55). -/
def allEntries (feeds : List Feed) : List Entry :=
  (feeds.map Feed.entries).flatten

/-- Whole of generate_hybrid_feed: the value is the emitted feed or the
raised error; the second component instruments the network requests
issued by the launched coroutines. -/
def generate_hybrid_feed (w : World) (urls : List String) (maxAge : Nat) :
    Except Err AtomFeed × Nat :=
  match fetchedFeeds w urls maxAge with
  | .error e => (.error e, netTotal w urls maxAge)
  | .ok feeds =>
    match sortE (allEntries feeds) with
    | .error e => (.error e, netTotal w urls maxAge)
    | .ok es => (.ok ⟨feedId urls, "Hybrid Feed", es⟩, netTotal w urls maxAge)

/-! ## Helper lemmas -/

theorem liveFetch_snd (w : World) (url : String) : (liveFetch w url).2 = 1 := by
  unfold liveFetch
  cases w.fetch url with
  | error s => rfl
  | ok c =>
    by_cases h : w.writeErr (cacheKey url) <;> simp [h]

/-- A network request is issued exactly when the cache entry is absent
or older than the threshold. -/
theorem netCalls_one_iff (w : World) (url : String) (maxAge : Nat) :
    (fetchContent w url maxAge).2 = 1 ↔
      (w.cache (cacheKey url) = none ∨
        ∃ b a, w.cache (cacheKey url) = some (b, a) ∧ maxAge < a) := by
  unfold fetchContent
  cases hc : w.cache (cacheKey url) with
  | none => simp [liveFetch_snd]
  | some p =>
    obtain ⟨b, a⟩ := p
    by_cases hage : a > maxAge
    · simp only [hage, if_pos, liveFetch_snd]
      simp only [true_iff]
      exact Or.inr ⟨b, a, rfl, hage⟩
    · simp only [hage, if_neg, Bool.not_eq_true]
      by_cases hr : w.readErr (cacheKey url) <;>
        simp [hr, Nat.lt_irrefl] <;> omega

/-- The fresh-and-readable cache branch returns the stored bytes with no
network request. -/
theorem fetchContent_cached (w : World) (url : String) (maxAge : Nat)
    (b : List Nat) (a : Nat) (hc : w.cache (cacheKey url) = some (b, a))
    (hfresh : a ≤ maxAge) (hr : w.readErr (cacheKey url) = false) :
    fetchContent w url maxAge = (.ok b, 0) := by
  have hage : ¬ a > maxAge := by omega
  unfold fetchContent
  rw [hc]
  simp [hage, hr]

theorem cmpKeys_none_right (k : Option Nat) :
    cmpKeys k none = .error .typeErr := by
  cases k <;> rfl

theorem cmpKeys_none_left (k : Option Nat) :
    cmpKeys none k = .error .typeErr := by
  cases k <;> rfl

/-- When both keys are present the comparison succeeds and decides the
descending order. -/
theorem cmpKeys_some (a b : Nat) :
    cmpKeys (some a) (some b) = .ok (decide (b ≤ a)) := rfl

/-- With all keys present, the fallible insert is the plain ordered
insert of the descending order. -/
theorem insertE_allSome (x : Entry) (t : List Entry)
    (hx : (entryKey x).isSome) (ht : ∀ y ∈ t, (entryKey y).isSome) :
    insertE x t = .ok (List.orderedInsert entryGe x t) := by
  induction t with
  | nil => rfl
  | cons y ys ih =>
    obtain ⟨kx, hkx⟩ := Option.isSome_iff_exists.mp hx
    obtain ⟨ky, hky⟩ := Option.isSome_iff_exists.mp (ht y (List.mem_cons_self y ys))
    have hkdx : keyD x = kx := by simp [keyD, hkx]
    have hkdy : keyD y = ky := by simp [keyD, hky]
    have hge : entryGe x y ↔ ky ≤ kx := by
      unfold entryGe; rw [hkdx, hkdy]
    unfold insertE
    rw [hkx, hky, cmpKeys_some]
    by_cases h : ky ≤ kx
    · rw [decide_eq_true h]
      rw [List.orderedInsert, if_pos (hge.mpr h)]
    · rw [decide_eq_false h]
      rw [ih (fun z hz => ht z (List.mem_cons_of_mem y hz))]
      rw [List.orderedInsert, if_neg (fun hc => h (hge.mp hc))]

/-- With all keys present, the fallible sort is the plain stable
insertion sort of the descending order. -/
theorem sortE_allSome (l : List Entry)
    (h : ∀ e ∈ l, (entryKey e).isSome) :
    sortE l = .ok (List.insertionSort entryGe l) := by
  induction l with
  | nil => rfl
  | cons x xs ih =>
    unfold sortE
    rw [ih (fun e he => h e (List.mem_cons_of_mem x he))]
    exact insertE_allSome x _ (h x (List.mem_cons_self x xs))
      (fun y hy => h y (List.mem_cons_of_mem x
        ((List.mem_insertionSort entryGe).mp hy)))

/-- Inserting an entry commutes with filtering on a fixed key value:
elements passed over have strictly larger keys, so they never share the
inserted entry's key. -/
theorem filter_orderedInsert (x : Entry) (t : List Entry) (k : Nat) :
    (List.orderedInsert entryGe x t).filter (fun e => keyD e == k) =
      if keyD x == k then x :: t.filter (fun e => keyD e == k)
      else t.filter (fun e => keyD e == k) := by
  induction t with
  | nil =>
    rw [List.orderedInsert_nil, List.filter_cons]
  | cons y ys ih =>
    by_cases hxy : entryGe x y
    · rw [List.orderedInsert, if_pos hxy, List.filter_cons]
    · rw [List.orderedInsert, if_neg hxy, List.filter_cons]
      have hlt : keyD x < keyD y := Nat.lt_of_not_le hxy
      by_cases px : (keyD x == k) = true <;>
        by_cases py : (keyD y == k) = true
      · exfalso
        have h1 : keyD x = k := by simpa using px
        have h2 : keyD y = k := by simpa using py
        omega
      · simp [px, py, ih, List.filter_cons]
      · simp [px, py, ih, List.filter_cons]
      · simp [px, py, ih, List.filter_cons]

/-- Stability of the insertion sort: entries holding any fixed key value
appear in the output in their input order. -/
theorem insertionSort_filter (l : List Entry) (k : Nat) :
    (List.insertionSort entryGe l).filter (fun e => keyD e == k) =
      l.filter (fun e => keyD e == k) := by
  induction l with
  | nil => rfl
  | cons x xs ih =>
    rw [List.insertionSort, filter_orderedInsert, List.filter_cons, ih]

/-- A list holding an entry without timestamps and at least two entries
makes the sort raise: the None key is always compared against some
neighbor. -/
theorem sortE_error_of_none (l : List Entry)
    (hn : ∃ e ∈ l, entryKey e = none) (hl : 2 ≤ l.length) :
    sortE l = .error .typeErr := by
  induction l with
  | nil => simp at hl
  | cons x xs ih =>
    by_cases hxs : ∃ e ∈ xs, entryKey e = none
    · by_cases hlen : 2 ≤ xs.length
      · unfold sortE
        rw [ih hxs hlen]
      · have h1 : xs.length = 1 := by
          simp only [List.length_cons] at hl
          omega
        obtain ⟨y, hy⟩ := List.length_eq_one.mp h1
        subst hy
        obtain ⟨e, he, hek⟩ := hxs
        have hye : entryKey y = none := by
          have h2 : e = y := by simpa using he
          rwa [h2] at hek
        show insertE x [y] = .error .typeErr
        unfold insertE
        rw [hye, cmpKeys_none_right]
    · have hx : entryKey x = none := by
        obtain ⟨e, he, hek⟩ := hn
        rcases List.mem_cons.mp he with h1 | h1
        · rwa [← h1]
        · exact absurd ⟨e, h1, hek⟩ hxs
      have hsome : ∀ e ∈ xs, (entryKey e).isSome := by
        intro e he
        cases hke : entryKey e with
        | none => exact absurd ⟨e, he, hke⟩ hxs
        | some v => rfl
      have hxs_ne : xs ≠ [] := by
        intro hnil
        subst hnil
        simp at hl
      unfold sortE
      rw [sortE_allSome xs hsome]
      cases hson : List.insertionSort entryGe xs with
      | nil =>
        exfalso
        exact hxs_ne (List.eq_nil_of_length_eq_zero
          (by rw [← (List.perm_insertionSort entryGe xs).length_eq, hson]; rfl))
      | cons z zs =>
        unfold insertE
        rw [hx, cmpKeys_none_left]

/-- Awaiting the gather re-raises an error as soon as any coroutine
failed. -/
theorem collectE_error (l : List (Except Err Feed))
    (h : ∃ x ∈ l, ∃ e, x = .error e) :
    ∃ e, collectE l = .error e := by
  induction l with
  | nil => simp at h
  | cons x xs ih =>
    cases x with
    | error e2 => exact ⟨e2, rfl⟩
    | ok f =>
      obtain ⟨y, hy, e, he⟩ := h
      rcases List.mem_cons.mp hy with h1 | h1
      · subst h1; simp at he
      · obtain ⟨e3, h3⟩ := ih ⟨y, h1, e, he⟩
        refine ⟨e3, ?_⟩
        unfold collectE
        rw [h3]

/-- Skipping a disallowed run is what the in-run state of the state
machine does. -/
theorem collapseSub_dropWhile (l : List Char) :
    collapseSub (l.dropWhile (fun d => !allowedChar d)) false =
      collapseSub l true := by
  induction l with
  | nil => rfl
  | cons c rest ih =>
    by_cases h : allowedChar c
    · simp [List.dropWhile_cons, h, collapseSub]
    · simp [List.dropWhile_cons, h, collapseSub, ih]

/-- With enough fuel the fuel-indexed normalization computes the
run-collapsing state machine. -/
theorem normCharsF_eq (fuel : Nat) (l : List Char) (h : l.length ≤ fuel) :
    normCharsF fuel l = collapseSub l false := by
  induction fuel generalizing l with
  | zero =>
    cases l with
    | nil => rfl
    | cons c rest => simp at h
  | succ f ih =>
    cases l with
    | nil => rfl
    | cons c rest =>
      by_cases hc : allowedChar c
      · have hr : rest.length ≤ f := by
          simp only [List.length_cons] at h
          omega
        simp [normCharsF, collapseSub, hc, ih rest hr]
      · have hd : (rest.dropWhile (fun d => !allowedChar d)).length ≤ f := by
          have h1 := (List.dropWhile_sublist (l := rest)
            (fun d => !allowedChar d)).length_le
          simp only [List.length_cons] at h
          omega
        have hc2 : allowedChar c = false := by simpa using hc
        simp [normCharsF, collapseSub, hc2, ih _ hd, collapseSub_dropWhile]

/-- The cache key is the state machine normalization of the URL. -/
theorem cacheKey_eq_collapse (s : String) :
    cacheKey s = String.mk (collapseSub s.data false) := by
  unfold cacheKey
  rw [normCharsF_eq _ _ (Nat.le_refl _)]

theorem lexLe_total : ∀ as bs, lexLe as bs = true ∨ lexLe bs as = true
  | [], _ => Or.inl rfl
  | _ :: _, [] => Or.inr rfl
  | a :: as, b :: bs => by
    simp only [lexLe, Bool.or_eq_true, Bool.and_eq_true, decide_eq_true_eq]
    rcases Nat.lt_trichotomy a.toNat b.toNat with h | h | h
    · exact Or.inl (Or.inl h)
    · rcases lexLe_total as bs with hr | hr
      · exact Or.inl (Or.inr ⟨h, hr⟩)
      · exact Or.inr (Or.inr ⟨h.symm, hr⟩)
    · exact Or.inr (Or.inl h)

theorem lexLe_trans :
    ∀ as bs cs, lexLe as bs = true → lexLe bs cs = true → lexLe as cs = true
  | [], _, _, _, _ => rfl
  | _ :: _, [], _, h1, _ => by simp [lexLe] at h1
  | _ :: _, _ :: _, [], _, h2 => by simp [lexLe] at h2
  | a :: as, b :: bs, c :: cs, h1, h2 => by
    simp only [lexLe, Bool.or_eq_true, Bool.and_eq_true,
      decide_eq_true_eq] at h1 h2 ⊢
    rcases h1 with h1 | ⟨h1e, h1r⟩ <;> rcases h2 with h2 | ⟨h2e, h2r⟩
    · exact Or.inl (by omega)
    · exact Or.inl (by omega)
    · exact Or.inl (by omega)
    · exact Or.inr ⟨by omega, lexLe_trans as bs cs h1r h2r⟩

theorem lexLe_antisymm :
    ∀ as bs, lexLe as bs = true → lexLe bs as = true → as = bs
  | [], [], _, _ => rfl
  | [], _ :: _, _, h2 => by simp [lexLe] at h2
  | _ :: _, [], h1, _ => by simp [lexLe] at h1
  | a :: as, b :: bs, h1, h2 => by
    simp only [lexLe, Bool.or_eq_true, Bool.and_eq_true,
      decide_eq_true_eq] at h1 h2
    have he : a.toNat = b.toNat := by
      rcases h1 with h1 | ⟨h1e, _⟩ <;> rcases h2 with h2 | ⟨h2e, _⟩ <;> omega
    have hc : a = b := Char.ext (UInt32.toNat.inj he)
    have hr : as = bs := by
      rcases h1 with h1 | ⟨_, h1r⟩
      · omega
      · rcases h2 with h2 | ⟨_, h2r⟩
        · omega
        · exact lexLe_antisymm as bs h1r h2r
    rw [hc, hr]

instance : IsTotal String (fun a b : String => strLe a b = true) :=
  ⟨fun a b => lexLe_total a.data b.data⟩

instance : IsTrans String (fun a b : String => strLe a b = true) :=
  ⟨fun a b c => lexLe_trans a.data b.data c.data⟩

instance : IsAntisymm String (fun a b : String => strLe a b = true) :=
  ⟨fun a b h1 h2 => String.ext (lexLe_antisymm a.data b.data h1 h2)⟩

/-- Permutation-equal URL lists sort to the same list (sorted lists over
a total order with antisymmetry are unique up to permutation). -/
theorem sortedUrls_perm (l1 l2 : List String) (h : l1.Perm l2) :
    sortedUrls l1 = sortedUrls l2 :=
  List.eq_of_perm_of_sorted (r := fun a b : String => strLe a b = true)
    ((List.perm_insertionSort _ l1).trans
      (h.trans (List.perm_insertionSort _ l2).symm))
    (List.sorted_insertionSort _ l1)
    (List.sorted_insertionSort _ l2)

/-! ## Concrete material for witnesses and counterexamples -/

/-- Entry with only an updated timestamp. -/
def entryA : Entry := ⟨"a1", "a1", "la", none, some "2024", none, some 10⟩

/-- Entry with only a published timestamp. -/
def entryB : Entry := ⟨"b1", "b1", "lb", some "2024", none, some 20, none⟩

/-- Entry carrying neither timestamp. -/
def entryNoTs : Entry := ⟨"t", "g", "l", none, none, none, none⟩

def feedA : Feed := ⟨[entryA]⟩

def feedB : Feed := ⟨[entryB]⟩

/-- World with one fresh readable cache entry under key "u". -/
def w1 : World :=
  ⟨fun s => if s = "u" then some ([1, 2], 3) else none,
   fun _ => false, fun _ => false, fun _ => .error 500, fun _ => .error 0⟩

/-- World with fresh cache entries for "a" and "b" whose bytes parse to
feedA and feedB. -/
def w2 : World :=
  ⟨fun s => if s = "a" then some ([1], 0)
    else if s = "b" then some ([2], 0) else none,
   fun _ => false, fun _ => false, fun _ => .error 500,
   fun bs => if bs = [1] then .ok feedA else .ok feedB⟩

/-- World whose cached feed parses to a single entry with no
timestamps. -/
def w4 : World :=
  ⟨fun s => if s = "u" then some ([1], 0) else none,
   fun _ => false, fun _ => false, fun _ => .error 500,
   fun _ => .ok ⟨[entryNoTs]⟩⟩

/-- World whose cached feed parses to two entries, one of which has no
timestamps. -/
def w4b : World :=
  ⟨fun s => if s = "u" then some ([1], 0) else none,
   fun _ => false, fun _ => false, fun _ => .error 500,
   fun _ => .ok ⟨[entryNoTs, entryA]⟩⟩

/-- World with an empty cache where the URL "bad" yields HTTP 404 and
every other URL fetches fine and parses to an empty feed. -/
def w5 : World :=
  ⟨fun _ => none, fun _ => false, fun _ => false,
   fun u => if u = "bad" then .error 404 else .ok [1],
   fun _ => .ok ⟨[]⟩⟩

/-- World with an empty cache, successful fetches, and failing cache
writes. -/
def w7 : World :=
  ⟨fun _ => none, fun _ => false, fun _ => true,
   fun _ => .ok [9], fun _ => .error 0⟩

/-- World with a fresh cache entry under "u" whose file read raises. -/
def w8 : World :=
  ⟨fun s => if s = "u" then some ([3], 1) else none,
   fun _ => true, fun _ => false, fun _ => .ok [9], fun _ => .error 0⟩

/-- World with a cache entry of age exactly zero under "u". -/
def w9 : World :=
  ⟨fun s => if s = "u" then some ([7], 0) else none,
   fun _ => false, fun _ => false, fun _ => .ok [9], fun _ => .error 0⟩

/-! ## Claims -/

/-- C1: for every URL and max-age threshold, the fetch phase issues a
live network request iff no cache entry exists for the URL or the cached
entry's age exceeds the threshold; otherwise (entry present, fresh, and
readable) it returns the cached bytes unchanged and issues zero network
requests.  Read-failure worlds are the subject of C8. -/
theorem C1_cache_freshness (w : World) (url : String) (T : Nat) :
    ((fetchContent w url T).2 = 1 ↔
      (w.cache (cacheKey url) = none ∨
        ∃ b a, w.cache (cacheKey url) = some (b, a) ∧ T < a)) ∧
    (∀ b a, w.cache (cacheKey url) = some (b, a) → a ≤ T →
      w.readErr (cacheKey url) = false →
      fetchContent w url T = (.ok b, 0)) :=
  ⟨netCalls_one_iff w url T,
   fun b a hc hf hr => fetchContent_cached w url T b a hc hf hr⟩

/-- C1 witness: a fresh readable entry of age 3 against threshold 5 is
served from the cache with zero network requests. -/
theorem C1_witness : fetchContent w1 "u" 5 = (.ok [1, 2], 0) :=
  (C1_cache_freshness w1 "u" 5).2 [1, 2] 3 (by rfl) (by decide) (by rfl)

/-- C2: whenever the gather phase produced feeds and every flattened
entry carries a timestamp, the output entry sequence of the aggregator
is the flattened concatenation of the per-feed entries, sorted
descending by the updated-else-published key, and stably so: entries of
equal key keep their flattened input order. -/
theorem C2_merge_order (w : World) (urls : List String) (maxAge : Nat)
    (feeds : List Feed)
    (hok : fetchedFeeds w urls maxAge = .ok feeds)
    (hkeys : ∀ e ∈ allEntries feeds, (entryKey e).isSome) :
    ∃ out,
      (generate_hybrid_feed w urls maxAge).1 =
        .ok ⟨feedId urls, "Hybrid Feed", out⟩ ∧
      out.Perm (allEntries feeds) ∧
      List.Sorted entryGe out ∧
      ∀ k, out.filter (fun e => keyD e == k) =
        (allEntries feeds).filter (fun e => keyD e == k) := by
  refine ⟨List.insertionSort entryGe (allEntries feeds), ?_, ?_, ?_, ?_⟩
  · unfold generate_hybrid_feed
    simp [hok, sortE_allSome _ hkeys]
  · exact List.perm_insertionSort _ _
  · exact List.sorted_insertionSort _ _
  · exact fun k => insertionSort_filter _ k

/-- C2 witness: two single-entry feeds merge into one ordered output. -/
theorem C2_witness :
    ∃ out,
      (generate_hybrid_feed w2 ["a", "b"] 3600).1 =
        .ok ⟨feedId ["a", "b"], "Hybrid Feed", out⟩ ∧
      out.Perm (allEntries [feedA, feedB]) ∧
      List.Sorted entryGe out ∧
      ∀ k, out.filter (fun e => keyD e == k) =
        (allEntries [feedA, feedB]).filter (fun e => keyD e == k) :=
  C2_merge_order w2 ["a", "b"] 3600 [feedA, feedB] (by rfl) (by decide)

/-- C3 counterexample: the lists ["a"] and ["a", "a"] denote the same
URL set, yet the code hashes the sorted list without removing
duplicates, so the two feed identities differ. -/
theorem C3_counterexample :
    (∀ x : String, x ∈ (["a"] : List String) ↔ x ∈ (["a", "a"] : List String)) ∧
    feedId ["a"] ≠ feedId ["a", "a"] := by
  constructor
  · intro x
    simp
  · decide

/-- C3 amended: the feed identity is a function of the multiset of
input URLs; it is invariant under permutation of the input list, but
duplicates are hashed, not collapsed, so lists denoting the same set
with different multiplicities can differ. -/
theorem C3_identity_amended (l1 l2 : List String) (h : l1.Perm l2) :
    feedId l1 = feedId l2 := by
  unfold feedId
  rw [sortedUrls_perm l1 l2 h]

/-- C3 witness: two permutations of the same two URLs get one id. -/
theorem C3_amended_witness : feedId ["b", "a"] = feedId ["a", "b"] :=
  C3_identity_amended ["b", "a"] ["a", "b"] (by decide)

/-- C4 counterexample: with a single entry carrying neither timestamp,
sorted performs no comparison, so no TypeError is raised and a feed is
emitted, containing that entry: the aggregation does not fail. -/
theorem C4_counterexample :
    entryKey entryNoTs = none ∧
    (generate_hybrid_feed w4 ["u"] 3600).1 =
      .ok ⟨feedId ["u"], "Hybrid Feed", [entryNoTs]⟩ :=
  ⟨rfl, rfl⟩

/-- C4 amended: if some flattened entry carries neither timestamp and
the flattened sequence has at least two entries, the sort raises
TypeError and the aggregation fails with no output feed; with exactly
one entry no comparison happens and a feed is emitted. -/
theorem C4_missing_timestamp_amended (w : World) (urls : List String)
    (maxAge : Nat) (feeds : List Feed)
    (hok : fetchedFeeds w urls maxAge = .ok feeds)
    (hnone : ∃ e ∈ allEntries feeds, entryKey e = none)
    (hlen : 2 ≤ (allEntries feeds).length) :
    (generate_hybrid_feed w urls maxAge).1 = .error .typeErr := by
  unfold generate_hybrid_feed
  simp [hok, sortE_error_of_none _ hnone hlen]

/-- C4 witness: two entries, one without timestamps, abort the run. -/
theorem C4_amended_witness :
    (generate_hybrid_feed w4b ["u"] 3600).1 = .error .typeErr :=
  C4_missing_timestamp_amended w4b ["u"] 3600 [⟨[entryNoTs, entryA]⟩]
    (by rfl) (by decide) (by decide)

/-- C5: if the fetch-plus-parse pipeline of any URL in the input list
fails (non-success HTTP status, transport failure, cache I/O failure on
that path, or parse failure), the whole aggregation returns an error:
no merged feed is produced. -/
theorem C5_fail_fast (w : World) (urls : List String) (maxAge : Nat)
    (u : String) (e : Err) (hu : u ∈ urls)
    (he : (parse_feed w u maxAge).1 = .error e) :
    ∃ e2, (generate_hybrid_feed w urls maxAge).1 = .error e2 := by
  have h1 : parse_feed w u maxAge ∈ fetchResults w urls maxAge :=
    List.mem_map_of_mem _ hu
  have h2 : (parse_feed w u maxAge).1 ∈
      (fetchResults w urls maxAge).map Prod.fst :=
    List.mem_map_of_mem _ h1
  rw [he] at h2
  obtain ⟨e3, h3⟩ := collectE_error _ ⟨_, h2, e, rfl⟩
  have h4 : fetchedFeeds w urls maxAge = .error e3 := h3
  refine ⟨e3, ?_⟩
  unfold generate_hybrid_feed
  rw [h4]

/-- C5 witness: one 404 among two URLs aborts the aggregation. -/
theorem C5_witness :
    ∃ e2, (generate_hybrid_feed w5 ["good", "bad"] 0).1 = .error e2 :=
  C5_fail_fast w5 ["good", "bad"] 0 "bad" (.fetch 404) (by decide) (by rfl)

/-- C6 counterexample: the claim keeps letters of either case, but the
source regex class is lowercase-only, so "A" is collapsed to the
separator while the claim's normalization keeps it. -/
theorem C6_counterexample :
    cacheKey "A" = "-" ∧ claimCacheKey "A" = "A" := by
  constructor
  · decide
  · decide

/-- C6 amended: the cache-key normalization maps every character
outside the case-sensitive class [a-z0-9-] (lowercase letters, digits,
hyphen) to a separator, collapsing each maximal run of such characters
into exactly one separator, as the state machine collapseSub states. -/
theorem C6_normalization_amended (url : String) :
    cacheKey url = String.mk (collapseSub url.data false) :=
  cacheKey_eq_collapse url

/-- C7 counterexample: the live fetch succeeds but the cache write
fails, and the fetch call returns the cache-write error rather than the
fetched bytes: the failure is not best-effort. -/
theorem C7_counterexample :
    w7.fetch "u" = .ok [9] ∧
    fetchContent w7 "u" 3600 = (.error .cacheWrite, 1) := ⟨rfl, rfl⟩

/-- C7 amended: when a live fetch succeeds but writing the bytes to the
cache fails, the exception propagates: the fetch operation fails with
the cache-write error and the fetched bytes are not returned. -/
theorem C7_cache_write_amended (w : World) (url : String) (T : Nat)
    (content : List Nat)
    (hlive : w.cache (cacheKey url) = none ∨
      ∃ b a, w.cache (cacheKey url) = some (b, a) ∧ T < a)
    (hfetch : w.fetch url = .ok content)
    (hw : w.writeErr (cacheKey url) = true) :
    fetchContent w url T = (.error .cacheWrite, 1) := by
  have hl : liveFetch w url = (.error .cacheWrite, 1) := by
    unfold liveFetch
    rw [hfetch, hw]
    simp
  unfold fetchContent
  rcases hlive with h | ⟨b, a, hc, ha⟩
  · rw [h]
    exact hl
  · simp [hc, ha, hl]

/-- C7 witness: empty cache, successful fetch, failing write. -/
theorem C7_amended_witness :
    fetchContent w7 "u" 3600 = (.error .cacheWrite, 1) :=
  C7_cache_write_amended w7 "u" 3600 [9] (Or.inl rfl) rfl rfl

/-- C8 counterexample: a fresh cache entry whose read fails makes the
fetch return the cache-read error with zero network requests; it is not
treated as a cache miss and does not fall through to a live fetch. -/
theorem C8_counterexample :
    w8.cache (cacheKey "u") = some ([3], 1) ∧
    fetchContent w8 "u" 100 = (.error .cacheRead, 0) := ⟨rfl, rfl⟩

/-- C8 amended: only absence of the cache entry (or staleness) falls
through to a live fetch; a read failure on a present, fresh entry
propagates as an error and issues no network request. -/
theorem C8_cache_read_amended (w : World) (url : String) (T : Nat)
    (b : List Nat) (a : Nat)
    (hc : w.cache (cacheKey url) = some (b, a)) (hfresh : a ≤ T)
    (hr : w.readErr (cacheKey url) = true) :
    fetchContent w url T = (.error .cacheRead, 0) := by
  have hage : ¬ a > T := by omega
  unfold fetchContent
  rw [hc]
  simp [hage, hr]

/-- C8 witness: the failing read aborts instead of refetching. -/
theorem C8_amended_witness :
    fetchContent w8 "u" 100 = (.error .cacheRead, 0) :=
  C8_cache_read_amended w8 "u" 100 [3] 1 rfl (by decide) rfl

/-- C9 counterexample: with max age 0 and a cache entry of age exactly
0, the strict comparison age > max_age fails and the entry is served
from the cache: no live fetch happens, against the claim that max age 0
forces one on every call. -/
theorem C9_counterexample :
    w9.cache (cacheKey "u") = some ([7], 0) ∧
    fetchContent w9 "u" 0 = (.ok [7], 0) := ⟨rfl, rfl⟩

/-- C9 amended: with max age 0 a live fetch happens iff the cache entry
is absent or its age is strictly positive; an entry of age exactly 0 is
served from the cache. -/
theorem C9_zero_max_age_amended (w : World) (url : String) :
    (fetchContent w url 0).2 = 1 ↔
      (w.cache (cacheKey url) = none ∨
        ∃ b a, w.cache (cacheKey url) = some (b, a) ∧ 0 < a) :=
  netCalls_one_iff w url 0

/-- C10: on the empty URL list the aggregation succeeds with zero
network requests and emits a feed with no entries, the fixed title
"Hybrid Feed", and the id "feed-" followed by the SHA-256 hex digest of
the empty string (whose value the second conjunct computes). -/
theorem C10_empty_input (w : World) :
    generate_hybrid_feed w [] 3600 =
      (.ok ⟨"feed-" ++ sha256Hex (strBytes ""), "Hybrid Feed", []⟩, 0) ∧
    sha256Hex (strBytes "") =
      "e3b0c44298fc1c149afbf4c8996fb92427ae41e4649b934ca495991b7852b855" := by
  constructor
  · rfl
  · decide
